import Mathlib

/-!
Verification of the spiderman AST-traversal library against its
specification.

The repository wraps a SpiderMonkey-style raw AST into navigable nodes
(`Spiderman.Node`), extracts each node's ordered children per a fixed
per-kind dispatch table (`Spiderman.Node.prototype._children`), enumerates
descendants in pre-order (`descendents`), resolves lexical scopes
(`_scope` / `scope`), collects identifiers per scope
(`Spiderman.Scope.prototype._identifiers`) and formats diagnostic digests
(`formatNode`).

The source has three near-duplicate revisions:
  * `src/spiderman.js` (method-based API; its `ThrowStatement` case
    mistakenly contains the try-statement logic and there is no
    `TryStatement` case at all);
  * `src/unnamed/part_000` (getter-based API; fixes `ThrowStatement` to
    `[node.argument]` and adds a proper `TryStatement` case; its missing
    child guard references `Spiderman.formatNode`, which that revision never
    defines — `formatNode` there is only a module-local function);
  * `src/unnamed/part_001` (same extractor as `spiderman.js`, no parent
    links).

We model raw nodes as dynamic records (a kind string plus named fields),
mirroring how the JavaScript inspects `node.type` and property presence and
truthiness.  Wrapped-node identity (used by the scope instance comparison
`node.parentScope() !== scope`) is rendered as the node's path of child
indices from the root: every wrapped node is created exactly once and each
scope-introducing node caches exactly one Scope, so two scopes are the same
instance iff they are introduced by the node at the same path.

Conventions of the model, all commented at their definition sites:
  * fields in child positions are nodes or absent/null (the input contract
    of §6: list-valued fields hold arrays of nodes);
  * failures (JS `throw`) are `Except.error` with a `JsErr` describing what
    the evaluated throw expression actually produces.
-/

set_option maxHeartbeats 1600000

namespace Spiderman

mutual
/-- A raw AST node: a `type` discriminant plus named fields, mirroring the
dynamic objects the JavaScript consumes (`node.type`, `node.body`, ...). -/
inductive RawNode : Type where
  | mk (type : String) (fields : List (String × Field)) : RawNode
/-- A field value of a raw node: a nested node, an array of nodes, a
primitive, or `null`. -/
inductive Field : Type where
  | vnode (n : RawNode) : Field
  | vlist (ns : List RawNode) : Field
  | vstr (s : String) : Field
  | vnum (i : Int) : Field
  | vbool (b : Bool) : Field
  | vnull : Field
end

mutual
/-- Structural size of a raw node, used as recursion fuel for the
descendant traversals (the derived `SizeOf` has no executable code for this
nested inductive). -/
def RawNode.size : RawNode → Nat
  | .mk _ fs => 1 + sizeFields fs
/-- Structural size of a field list. -/
def sizeFields : List (String × Field) → Nat
  | [] => 0
  | kf :: rest => 1 + Field.size kf.2 + sizeFields rest
/-- Structural size of a field value. -/
def Field.size : Field → Nat
  | .vnode n => 1 + RawNode.size n
  | .vlist ns => 1 + sizeNodes ns
  | .vstr _ => 1
  | .vnum _ => 1
  | .vbool _ => 1
  | .vnull => 1
/-- Structural size of a node list. -/
def sizeNodes : List RawNode → Nat
  | [] => 0
  | n :: rest => 1 + RawNode.size n + sizeNodes rest
end

/-- Accessor for `node.type`. -/
def RawNode.type : RawNode → String
  | .mk t _ => t

/-- The node's own fields (excluding the `type` discriminant, which the model
stores separately; `formatNode` re-inserts it first, matching the key order
of parser-produced objects). -/
def RawNode.fields : RawNode → List (String × Field)
  | .mk _ fs => fs

/-- Property lookup `node[k]`: `some` when the object has the key. -/
def getF (n : RawNode) (k : String) : Option Field :=
  n.fields.lookup k

/-- JavaScript truthiness of a field value: objects and arrays are truthy
(even `[]`), `""`, `0`, `false` and `null` are falsy. -/
def truthy : Field → Bool
  | .vnode _ => true
  | .vlist _ => true
  | .vstr s => s != ""
  | .vnum i => i != 0
  | .vbool b => b
  | .vnull => false

/-- Truthiness of `node[k]` (an absent property is `undefined`, falsy). -/
def truthyOpt : Option Field → Bool
  | none => false
  | some f => truthy f

/-- Read a child position as a node; absent/null (or non-node, which the
grammar contract of §6 excludes from child positions) is `none`. -/
def asNode : Option Field → Option RawNode
  | some (.vnode m) => some m
  | _ => none

/-- A thrown JavaScript value in the modelled code paths:
`unknownNodeType` for the extractor's default-case throw, `missingChild`
for a thrown `'Missing child: ' + <digest>` string (never actually produced
by any revision, see `childrenP0`), `typeError` for a genuine `TypeError`
raised while evaluating an expression. -/
inductive JsErr : Type where
  | unknownNodeType (msg : String) : JsErr
  | missingChild (msg : String) : JsErr
  | typeError (msg : String) : JsErr
deriving DecidableEq

/-- The `typeof value` string for the truthy branch of `formatNode`. -/
def typeofField : Field → String
  | .vnode _ => "object"
  | .vlist _ => "object"
  | .vstr _ => "string"
  | .vnum _ => "number"
  | .vbool _ => "boolean"
  | .vnull => "object"

/-- The test `value && value.type` of `formatNode`: only a node has a `type` key and
the test also needs that string to be truthy. -/
def hasTruthyTypeField : Field → Bool
  | .vnode m => m.type != ""
  | _ => false

/-- The test `value instanceof Array`. -/
def isArrayField : Field → Bool
  | .vlist _ => true
  | _ => false

/-- The nested node's kind, for the first branch of `formatNode`. -/
def nodeTypeOf : Field → String
  | .vnode m => m.type
  | _ => ""

/-- One `key` entry of `formatNode`'s `properties` array, following the
source's if-chain: `key + ':' + value.type` for a node-valued field with a
truthy kind, `key + ':[]'` for an array, `key + ':' + typeof value` for any
other truthy value, and the bare `key` when the value is falsy. -/
def fieldEntry (k : String) (f : Field) : String :=
  if hasTruthyTypeField f then k ++ ":" ++ nodeTypeOf f
  else if isArrayField f then k ++ ":[]"
  else if truthy f then k ++ ":" ++ typeofField f
  else k

/-- The digest `formatNode(node)`: `node.type + ' (' + properties.join(', ') + ')'`,
where `Object.keys(node)` runs over the raw object's keys in insertion
order — the `type` key first (as parser-produced nodes are built), then the
remaining fields. -/
def formatNode (n : RawNode) : String :=
  n.type ++ " (" ++
    String.intercalate ", "
      ((("type", Field.vstr n.type) :: n.fields).map fun kf => fieldEntry kf.1 kf.2)
    ++ ")"

/-- The tail the extractor's default case appends after the digest. -/
def reportSuffix : String :=
  "\n\nReport this to https://github.com/dtao/spiderman/issues"

/-- One child position of the extractor's dispatch table:
`req k` for an unconditional `[node.k]` entry, `opt k` for a
`node.k ? [node.k] : []` entry, `lst k` for a list-valued field returned or
concatenated wholesale (`node.body`, `.concat(node.cases)`, ...). -/
inductive CSpec : Type where
  | req (k : String) : CSpec
  | opt (k : String) : CSpec
  | lst (k : String) : CSpec
deriving DecidableEq

/-- Evaluate one table entry on a node.  A `lst` field that is not an array
models the `TypeError` JavaScript raises when the returned non-array value
reaches `children()`'s `.map` (the input contract makes list fields
arrays). -/
def runSpec (n : RawNode) : CSpec → Except JsErr (List (Option RawNode))
  | .req k => .ok [asNode (getF n k)]
  | .opt k => .ok (if truthyOpt (getF n k) then [asNode (getF n k)] else [])
  | .lst k =>
    match getF n k with
    | some (.vlist ns) => .ok (ns.map some)
    | _ => .error (.typeError "list-valued child field is not an array")

/-- The dispatch rows shared verbatim by all three revisions of
`Spiderman.Node.prototype._children`, one row per `case` of the switch, in
source order.  `ThrowStatement` and `TryStatement` differ between revisions
and are added by `childSpecJS` / `childSpecP0`. -/
def commonTable : List (String × List CSpec) := [
  ("Program", [.lst "body"]),
  ("FunctionDeclaration", [.req "body"]),
  ("FunctionExpression", [.req "body"]),
  ("EmptyStatement", []),
  ("BlockStatement", [.lst "body"]),
  ("ExpressionStatement", [.req "expression"]),
  ("IfStatement", [.req "test", .req "consequent", .opt "alternate"]),
  ("LabeledStatement", [.req "body"]),
  ("BreakStatement", []),
  ("ContinueStatement", []),
  ("WithStatement", [.req "object", .req "body"]),
  ("SwitchStatement", [.req "discriminant", .lst "cases"]),
  ("ReturnStatement", [.opt "argument"]),
  ("WhileStatement", [.req "test", .req "body"]),
  ("DoWhileStatement", [.req "body", .req "test"]),
  ("ForStatement", [.opt "init", .opt "test", .opt "update", .req "body"]),
  ("ForInStatement", [.req "left", .req "right", .req "body"]),
  ("ForOfStatement", [.req "left", .req "right", .req "body"]),
  ("LetStatement", [.req "head", .req "body"]),
  ("DebuggerStatement", []),
  ("VariableDeclaration", [.lst "declarations"]),
  ("VariableDeclarator", [.req "init"]),
  ("ThisExpression", []),
  ("ArrayExpression", [.lst "elements"]),
  ("ObjectExpression", [.lst "properties"]),
  ("Property", [.req "key", .req "value"]),
  ("ArrowExpression", [.req "body"]),
  ("SequenceExpression", [.lst "expressions"]),
  ("UnaryExpression", [.req "argument"]),
  ("BinaryExpression", [.req "left", .req "right"]),
  ("AssignmentExpression", [.req "left", .req "right"]),
  ("UpdateExpression", [.req "argument"]),
  ("LogicalExpression", [.req "left", .req "right"]),
  ("ConditionalExpression", [.req "test", .req "consequent", .req "alternate"]),
  ("NewExpression", [.req "callee", .lst "arguments"]),
  ("CallExpression", [.req "callee", .lst "arguments"]),
  ("MemberExpression", [.req "object", .req "property"]),
  ("YieldExpression", [.req "argument"]),
  ("SwitchCase", [.opt "test", .lst "consequent"]),
  ("CatchClause", [.req "param", .req "body"]),
  ("Identifier", []),
  ("Literal", [])
]

/-- The dispatch table of `src/spiderman.js` (and `src/unnamed/part_001`):
its `case 'ThrowStatement'` body is
`[node.block].concat(node.handler ? ... ).concat(node.finalizer ? ...)`
— the try-statement logic — and there is no `TryStatement` case, so try
nodes fall into the default (unknown node type) branch. -/
def childSpecJS (t : String) : Option (List CSpec) :=
  if t = "ThrowStatement" then some [.req "block", .opt "handler", .opt "finalizer"]
  else commonTable.lookup t

/-- The dispatch table of `src/unnamed/part_000`: `ThrowStatement` returns
`[node.argument]` and `TryStatement` returns
`[node.block] + [node.handler]? + [node.finalizer]?`. -/
def childSpecP0 (t : String) : Option (List CSpec) :=
  if t = "ThrowStatement" then some [.req "argument"]
  else if t = "TryStatement" then some [.req "block", .opt "handler", .opt "finalizer"]
  else commonTable.lookup t

/-- Extraction `_children()` for a given dispatch table: the default case throws
`'Unknown node type: ' + formatNode(node) + '\n\nReport this to ...'`;
a recognized kind concatenates its row's entries in order.  Entries may be
`none` when a required child position is absent (e.g. a `VariableDeclarator`
with no `init`), exactly as the JavaScript array may contain `undefined`. -/
def childrenRawWith (spec : String → Option (List CSpec)) (n : RawNode) :
    Except JsErr (List (Option RawNode)) :=
  match spec n.type with
  | none => .error (.unknownNodeType ("Unknown node type: " ++ formatNode n ++ reportSuffix))
  | some sps => do
    let parts ← sps.mapM (runSpec n)
    pure parts.flatten

/-- The extractor `Spiderman.Node.prototype._children` of `src/spiderman.js`. -/
def childrenRawJS (n : RawNode) : Except JsErr (List (Option RawNode)) :=
  childrenRawWith childSpecJS n

/-- The extractor `Spiderman.Node.prototype._children` of `src/unnamed/part_000`. -/
def childrenRawP0 (n : RawNode) : Except JsErr (List (Option RawNode)) :=
  childrenRawWith childSpecP0 n

/-- Wrapping one extracted child in `src/spiderman.js`'s `children()`:
`new Spiderman.Node(child, node)` reads `child.type` in the constructor, so
an `undefined` entry raises a `TypeError` (there is no missing-child guard
in this revision). -/
def wrapJS : Option RawNode → Except JsErr RawNode
  | some c => .ok c
  | none => .error (.typeError "Cannot read property type of undefined")

/-- The method `children()` of `src/spiderman.js`: extract, then wrap each entry with
`self` as parent (memoization returns the same nodes afterwards, which a
pure model renders as plain recomputation). -/
def childrenJS (n : RawNode) : Except JsErr (List RawNode) := do
  let es ← childrenRawJS n
  es.mapM wrapJS

/-- Wrapping one extracted child in `src/unnamed/part_000`'s `children`
getter: `if (!child) throw 'Missing child: ' + Spiderman.formatNode(self)`.
In that revision `Spiderman.formatNode` is never defined (`formatNode` is
only a module-local function), so evaluating the throw expression calls
`undefined` and raises a `TypeError` before any digest string is built:
the intended `missingChild` error is unreachable. -/
def wrapP0 : Option RawNode → Except JsErr RawNode
  | some c => .ok c
  | none => .error (.typeError "Spiderman.formatNode is not a function")

/-- The `children` getter of `src/unnamed/part_000`. -/
def childrenP0 (n : RawNode) : Except JsErr (List RawNode) := do
  let es ← childrenRawP0 n
  es.mapM wrapP0

/-- The child of a wrapped node at index `i`, per `src/spiderman.js`. -/
def childAt (n : RawNode) (i : Nat) : Option RawNode :=
  match childrenJS n with
  | .ok cs => cs[i]?
  | .error _ => none

/-- The raw node a path of child indices leads to from `root`; paths render
wrapped-node identity (each wrapped node is created exactly once, at one
position of the tree). -/
def nodeAt (root : RawNode) : List Nat → Option RawNode
  | [] => some root
  | i :: p =>
    match childAt root i with
    | some c => nodeAt c p
    | none => none

/-- The scope-introducing kinds of `Spiderman.Node.prototype._scope`. -/
def scopeKinds : List String := ["Program", "FunctionDeclaration", "FunctionExpression"]

/-- Workhorse of `scopePath`, on the reversed path: `_scope()` returns a
scope at the current node when its kind is scope-introducing and otherwise
asks the parent; at the root with a non-scope kind, `this.parent.scope()`
dereferences an undefined parent (`none`). -/
def scopeAux (root : RawNode) : List Nat → Option (List Nat)
  | [] => if root.type ∈ scopeKinds then some [] else none
  | i :: rp =>
    match nodeAt root ((i :: rp).reverse) with
    | none => none
    | some n =>
      if n.type ∈ scopeKinds then some ((i :: rp).reverse) else scopeAux root rp

/-- The scope `scope()` of the wrapped node at path `p`, rendered as the path of the
scope-introducing node whose (memoized, hence unique) `Spiderman.Scope`
instance it resolves to. -/
def scopePath (root : RawNode) (p : List Nat) : Option (List Nat) :=
  scopeAux root p.reverse

/-- The traversal `descendents()` of `src/spiderman.js` with its accumulator argument
(`arguments[0]`, shared and pushed onto in pre-order), made total by
structural fuel; `descendentsJS` supplies fuel `sizeOf n`, which the fuel
lemmas below prove sufficient, so the fuel-exhausted error is unreachable. -/
def descAuxF : Nat → RawNode → List RawNode → Except JsErr (List RawNode)
  | 0, _, _ => .error (.typeError "recursion fuel exhausted")
  | fuel + 1, n, list => do
    let cs ← childrenJS n
    cs.foldlM (fun l c => descAuxF fuel c (l ++ [c])) list

/-- The method `descendents()` called with no arguments: pre-order descendants,
excluding the node itself. -/
def descendentsJS (n : RawNode) : Except JsErr (List RawNode) :=
  descAuxF n.size n []

/-- The same pre-order traversal with each wrapped descendant's identity
made explicit: the list of (path relative to `n`, raw node) pairs. -/
def descPairsF : Nat → RawNode → Except JsErr (List (List Nat × RawNode))
  | 0, _ => .error (.typeError "recursion fuel exhausted")
  | fuel + 1, n => do
    let cs ← childrenJS n
    let parts ← cs.enum.mapM fun ic => do
      let ds ← descPairsF fuel ic.2
      pure (([ic.1], ic.2) :: ds.map fun q => (ic.1 :: q.1, q.2))
    pure parts.flatten

/-- Pre-order descendants of `n` with their relative paths. -/
def descPairs (n : RawNode) : Except JsErr (List (List Nat × RawNode)) :=
  descPairsF n.size n

/-- The `_identifiers` push for one visited raw node:
`if (node.id && node.id.type === 'Identifier') list.push(node.id.name)`.
Only a node value has a `type` key, so the guard holds exactly for a
node-valued `id` of kind `Identifier`.  A grammar-conforming `Identifier`
carries a string `name`; the `"undefined"` fallback renders the `undefined`
the JavaScript would push for a malformed one and is never reached in the
claims (their hypotheses and inputs fix a string name). -/
def idPush (n : RawNode) : List String :=
  match getF n "id" with
  | some (.vnode idn) =>
    if idn.type = "Identifier" then
      match getF idn "name" with
      | some (.vstr s) => [s]
      | _ => ["undefined"]
    else []
  | _ => []

/-- The contribution of one visited descendant `q` (relative path, raw node)
to `identifiers()` of the scope at path `s`: skip unless the descendant's
`parentScope()` — `scope()` of its parent, the node at `(s ++ q.1).dropLast`
— is the same Scope instance, then push per `idPush`.  A failing parent
scope lookup propagates as the thrown `TypeError`. -/
def contribAt (root : RawNode) (s : List Nat) (q : List Nat × RawNode) :
    Except JsErr (List String) :=
  match scopePath root ((s ++ q.1).dropLast) with
  | none => .error (.typeError "cannot resolve parent scope")
  | some ps => pure (if ps = s then idPush q.2 else [])

/-- The collector `Spiderman.Scope.prototype._identifiers` for the (unique, memoized)
scope introduced at path `s`: walk `this.node.descendents()` in pre-order,
keep the descendants whose `parentScope()` is this same scope instance, and
push `node.id.name` for those carrying an Identifier-kinded `id`. -/
def identifiersAt (root : RawNode) (s : List Nat) : Except JsErr (List String) :=
  match nodeAt root s with
  | none => .error (.typeError "scope node not found")
  | some n => do
    let ds ← descPairs n
    ds.foldlM (fun list q =>
      match scopePath root ((s ++ q.1).dropLast) with
      | none => .error (.typeError "cannot resolve parent scope")
      | some ps => pure (if ps = s then list ++ idPush q.2 else list)) []

/-! ### The example program of the spec (§8, `example/example.js`)

`var foo = {}; for (var i = 0; i < 10; i++) {} function f() { var g = 1; }`
— a var declaration of `foo`, a for loop declaring `i`, and a function
declaration `f` whose body declares `g`. -/

/-- An `Identifier` raw node. -/
def identF (nm : String) : RawNode := .mk "Identifier" [("name", .vstr nm)]

/-- A numeric `Literal` raw node. -/
def litNum (i : Int) : RawNode := .mk "Literal" [("value", .vnum i)]

/-- An empty object literal. -/
def objEmpty : RawNode := .mk "ObjectExpression" [("properties", .vlist [])]

/-- Statement `var foo = {};`. -/
def declFoo : RawNode := .mk "VariableDeclaration"
  [("declarations", .vlist
      [.mk "VariableDeclarator" [("id", .vnode (identF "foo")), ("init", .vnode objEmpty)]]),
   ("kind", .vstr "var")]

/-- Declaration `var i = 0` (the for loop's init clause). -/
def declI : RawNode := .mk "VariableDeclaration"
  [("declarations", .vlist
      [.mk "VariableDeclarator" [("id", .vnode (identF "i")), ("init", .vnode (litNum 0))]]),
   ("kind", .vstr "var")]

/-- Statement `for (var i = 0; i < 10; i++)` with an empty body. -/
def forLoop : RawNode := .mk "ForStatement"
  [("init", .vnode declI),
   ("test", .vnode (.mk "BinaryExpression"
      [("operator", .vstr "<"), ("left", .vnode (identF "i")), ("right", .vnode (litNum 10))])),
   ("update", .vnode (.mk "UpdateExpression"
      [("operator", .vstr "++"), ("argument", .vnode (identF "i"))])),
   ("body", .vnode (.mk "BlockStatement" [("body", .vlist [])]))]

/-- Statement `var g = 1;` inside `f`. -/
def declG : RawNode := .mk "VariableDeclaration"
  [("declarations", .vlist
      [.mk "VariableDeclarator" [("id", .vnode (identF "g")), ("init", .vnode (litNum 1))]]),
   ("kind", .vstr "var")]

/-- The body block of `f`. -/
def funBody : RawNode := .mk "BlockStatement" [("body", .vlist [declG])]

/-- Declaration `function f()` with body `var g = 1;`. -/
def funF : RawNode := .mk "FunctionDeclaration"
  [("id", .vnode (identF "f")), ("params", .vlist []), ("body", .vnode funBody)]

/-- The whole example program. -/
def exProgram : RawNode := .mk "Program" [("body", .vlist [declFoo, forLoop, funF])]

/-! ### Concrete inputs for the corrected / code-bug claims -/

/-- A variable declarator with no `init` (`var x;` as parsers produce it,
modulo the `init: null` field, which behaves identically — both are falsy
and fail `asNode`). -/
def vdNoInit : RawNode := .mk "VariableDeclarator" [("id", .vnode (identF "x"))]

/-- Statement `throw e;`. -/
def throwEx : RawNode := .mk "ThrowStatement" [("argument", .vnode (identF "e"))]

/-- An empty statement block. -/
def blockEmpty : RawNode := .mk "BlockStatement" [("body", .vlist [])]

/-- Clause `catch (e)` with an empty block. -/
def catchEx : RawNode := .mk "CatchClause"
  [("param", .vnode (identF "e")), ("body", .vnode blockEmpty)]

/-- Statement `try ... catch (e) ...` with empty blocks and no finalizer. -/
def tryEx : RawNode := .mk "TryStatement"
  [("block", .vnode blockEmpty), ("handler", .vnode catchEx)]

/-- A for statement `for (var i = 0; ; i++)` missing its test clause. -/
def forNoTest : RawNode := .mk "ForStatement"
  [("init", .vnode declI),
   ("update", .vnode (.mk "UpdateExpression" [("argument", .vnode (identF "i"))])),
   ("body", .vnode blockEmpty)]

/-- Literal `false`: a field whose value is a falsy primitive. -/
def litFalse : RawNode := .mk "Literal" [("value", .vbool false)]

/-- A raw node of a made-up kind outside the grammar table. -/
def fooEx : RawNode := .mk "FooStatement" [("body", .vlist [])]

/-! ### Generic lemmas about `Except` computations over lists -/

theorem exc_bind_ok {α β : Type} (a : α) (f : α → Except JsErr β) :
    (Except.ok a >>= f : Except JsErr β) = f a := rfl

theorem exc_bind_err {α β : Type} (e : JsErr) (f : α → Except JsErr β) :
    ((Except.error e : Except JsErr α) >>= f) = Except.error e := rfl

theorem exc_map_ok {α β : Type} (a : α) (f : α → β) :
    (f <$> (Except.ok a : Except JsErr α)) = Except.ok (f a) := rfl

theorem exc_map_err {α β : Type} (e : JsErr) (f : α → β) :
    (f <$> (Except.error e : Except JsErr α)) = Except.error e := rfl

/-- A successful `mapM` accounts for every element of its result. -/
theorem mapM_ok_mem {α β : Type} (f : α → Except JsErr β) :
    ∀ (l : List α) (ys : List β), l.mapM f = Except.ok ys →
      ∀ y ∈ ys, ∃ a ∈ l, f a = Except.ok y := by
  intro l
  induction l with
  | nil =>
    intro ys h y hy
    simp only [List.mapM_nil] at h
    cases h
    simp at hy
  | cons x xs ih =>
    intro ys h y hy
    rw [List.mapM_cons] at h
    cases hfx : f x with
    | error e => rw [hfx] at h; simp [exc_bind_err] at h
    | ok y0 =>
      rw [hfx, exc_bind_ok] at h
      cases hxs : xs.mapM f with
      | error e => rw [hxs] at h; simp [exc_bind_err] at h
      | ok ys0 =>
        rw [hxs, exc_bind_ok] at h
        cases h
        rcases List.mem_cons.mp hy with rfl | hy0
        · exact ⟨x, List.mem_cons_self x xs, hfx⟩
        · obtain ⟨a, ha, hfa⟩ := ih ys0 hxs y hy0
          exact ⟨a, List.mem_cons_of_mem x ha, hfa⟩

/-- A successful `mapM` succeeds on every element of its input. -/
theorem mapM_ok_of_mem {α β : Type} (f : α → Except JsErr β) :
    ∀ (l : List α) (ys : List β), l.mapM f = Except.ok ys →
      ∀ a ∈ l, ∃ y ∈ ys, f a = Except.ok y := by
  intro l
  induction l with
  | nil =>
    intro ys h a ha
    simp at ha
  | cons x xs ih =>
    intro ys h a ha
    rw [List.mapM_cons] at h
    cases hfx : f x with
    | error e => rw [hfx] at h; simp [exc_bind_err] at h
    | ok y0 =>
      rw [hfx, exc_bind_ok] at h
      cases hxs : xs.mapM f with
      | error e => rw [hxs] at h; simp [exc_bind_err] at h
      | ok ys0 =>
        rw [hxs, exc_bind_ok] at h
        cases h
        rcases List.mem_cons.mp ha with rfl | ha0
        · exact ⟨y0, List.mem_cons_self _ _, hfx⟩
        · obtain ⟨y, hy, hfy⟩ := ih ys0 hxs a ha0
          exact ⟨y, List.mem_cons_of_mem _ hy, hfy⟩

/-- The run of `mapM` only looks at its function on elements of the list. -/
theorem mapM_congr {α β : Type} (f g : α → Except JsErr β) :
    ∀ (l : List α), (∀ a ∈ l, f a = g a) → l.mapM f = l.mapM g := by
  intro l
  induction l with
  | nil => intro _; rfl
  | cons x xs ih =>
    intro h
    rw [List.mapM_cons, List.mapM_cons, h x (List.mem_cons_self x xs),
      ih (fun a ha => h a (List.mem_cons_of_mem x ha))]

/-- The run of `foldlM` only looks at its function on elements of the list. -/
theorem foldlM_congr {α β : Type} (f g : β → α → Except JsErr β) :
    ∀ (l : List α) (init : β), (∀ b, ∀ a ∈ l, f b a = g b a) →
      l.foldlM f init = l.foldlM g init := by
  intro l
  induction l with
  | nil => intro _ _; rfl
  | cons x xs ih =>
    intro init h
    rw [List.foldlM_cons, List.foldlM_cons, h init x (List.mem_cons_self x xs)]
    cases g init x with
    | error e => rw [exc_bind_err, exc_bind_err]
    | ok b =>
      rw [exc_bind_ok, exc_bind_ok]
      exact ih b fun b0 a ha => h b0 a (List.mem_cons_of_mem x ha)

/-- An accumulating fold that appends each step's contribution equals
collecting all contributions with `mapM` and flattening them after `init`. -/
theorem foldlM_append_eq_mapM_flatten {α β : Type} (g : α → Except JsErr (List β)) :
    ∀ (l : List α) (init : List β),
      l.foldlM (fun acc a => (fun v => acc ++ v) <$> g a) init =
        (fun parts => init ++ parts.flatten) <$> l.mapM g := by
  intro l
  induction l with
  | nil =>
    intro init
    simp only [List.foldlM_nil, List.mapM_nil]
    show Except.ok init = Except.ok (init ++ [].flatten)
    simp
  | cons x xs ih =>
    intro init
    rw [List.foldlM_cons, List.mapM_cons]
    cases hx : g x with
    | error e => simp only [exc_map_err, exc_bind_err]
    | ok v =>
      simp only [exc_map_ok, exc_bind_ok]
      rw [ih (init ++ v)]
      cases hxs : xs.mapM g with
      | error e => simp only [exc_map_err, exc_bind_err]
      | ok parts =>
        simp only [exc_map_ok, exc_bind_ok]
        show Except.ok ((init ++ v) ++ parts.flatten) = Except.ok (init ++ (v :: parts).flatten)
        simp

/-! ### Size bounds: extracted children are structurally smaller -/

theorem size_pos (n : RawNode) : 1 ≤ n.size := by
  cases n with
  | mk t fs => simp only [RawNode.size]; omega

theorem lookup_mem {β : Type} :
    ∀ (l : List (String × β)) (k : String) (b : β),
      l.lookup k = some b → ∃ k2, (k2, b) ∈ l := by
  intro l
  induction l with
  | nil => intro k b h; simp [List.lookup] at h
  | cons kv rest ih =>
    intro k b h
    obtain ⟨k0, b0⟩ := kv
    rw [List.lookup] at h
    cases hk : k == k0 with
    | true =>
      rw [hk] at h
      cases h
      exact ⟨k0, List.mem_cons_self _ _⟩
    | false =>
      rw [hk] at h
      obtain ⟨k2, hmem⟩ := ih k b h
      exact ⟨k2, List.mem_cons_of_mem _ hmem⟩

theorem mem_sizeFields (f : Field) :
    ∀ (fs : List (String × Field)) (k : String), (k, f) ∈ fs → Field.size f < sizeFields fs := by
  intro fs
  induction fs with
  | nil => intro k h; simp at h
  | cons kf rest ih =>
    intro k h
    rcases List.mem_cons.mp h with heq | hmem
    · rw [← heq]; simp only [sizeFields]; omega
    · have := ih k hmem
      simp only [sizeFields]
      omega

theorem mem_sizeNodes (c : RawNode) :
    ∀ (ns : List RawNode), c ∈ ns → c.size < sizeNodes ns := by
  intro ns
  induction ns with
  | nil => intro h; simp at h
  | cons n0 rest ih =>
    intro h
    rcases List.mem_cons.mp h with rfl | hmem
    · simp only [sizeNodes]; omega
    · have := ih hmem
      simp only [sizeNodes]
      omega

theorem getF_size (n : RawNode) (k : String) (f : Field)
    (h : getF n k = some f) : Field.size f < n.size := by
  cases n with
  | mk t fs =>
    simp only [getF, RawNode.fields] at h
    obtain ⟨k2, hmem⟩ := lookup_mem fs k f h
    have := mem_sizeFields f fs k2 hmem
    simp only [RawNode.size]
    omega

theorem asNode_size (n : RawNode) (k : String) (c : RawNode)
    (h : asNode (getF n k) = some c) : c.size < n.size := by
  cases hg : getF n k with
  | none => rw [hg] at h; simp [asNode] at h
  | some f =>
    rw [hg] at h
    cases f with
    | vnode m =>
      simp only [asNode, Option.some.injEq] at h
      have h2 := getF_size n k (.vnode m) hg
      simp only [Field.size] at h2
      rw [← h]
      omega
    | vlist ns => simp [asNode] at h
    | vstr s => simp [asNode] at h
    | vnum i => simp [asNode] at h
    | vbool b => simp [asNode] at h
    | vnull => simp [asNode] at h

theorem lst_size (n : RawNode) (k : String) (ns : List RawNode) (c : RawNode)
    (hg : getF n k = some (.vlist ns)) (hm : c ∈ ns) : c.size < n.size := by
  have h1 := getF_size n k (.vlist ns) hg
  have h2 := mem_sizeNodes c ns hm
  simp only [Field.size] at h1
  omega

theorem runSpec_size (n : RawNode) (sp : CSpec) (es : List (Option RawNode)) (c : RawNode)
    (h : runSpec n sp = Except.ok es) (hm : some c ∈ es) : c.size < n.size := by
  cases sp with
  | req k =>
    simp only [runSpec, Except.ok.injEq] at h
    subst h
    simp only [List.mem_singleton] at hm
    exact asNode_size n k c hm.symm
  | opt k =>
    simp only [runSpec, Except.ok.injEq] at h
    subst h
    by_cases ht : truthyOpt (getF n k)
    · rw [if_pos ht] at hm
      simp only [List.mem_singleton] at hm
      exact asNode_size n k c hm.symm
    · rw [if_neg ht] at hm
      simp at hm
  | lst k =>
    simp only [runSpec] at h
    cases hg : getF n k with
    | none => rw [hg] at h; exact absurd h (by simp)
    | some f =>
      rw [hg] at h
      cases f with
      | vlist ns =>
        simp only [Except.ok.injEq] at h
        subst h
        simp only [List.mem_map] at hm
        obtain ⟨c0, hc0, hceq⟩ := hm
        rw [← Option.some.inj hceq]
        exact lst_size n k ns c0 hg hc0
      | vnode m => exact absurd h (by simp)
      | vstr s => exact absurd h (by simp)
      | vnum i => exact absurd h (by simp)
      | vbool b => exact absurd h (by simp)
      | vnull => exact absurd h (by simp)

theorem childrenRawWith_size (spec : String → Option (List CSpec)) (n : RawNode)
    (es : List (Option RawNode)) (c : RawNode)
    (h : childrenRawWith spec n = Except.ok es) (hm : some c ∈ es) : c.size < n.size := by
  unfold childrenRawWith at h
  cases hsp : spec n.type with
  | none =>
    rw [hsp] at h
    replace h : Except.error
        (JsErr.unknownNodeType ("Unknown node type: " ++ formatNode n ++ reportSuffix)) =
      Except.ok es := h
    exact Except.noConfusion h
  | some sps =>
    rw [hsp] at h
    replace h : (sps.mapM (runSpec n) >>= fun parts => pure parts.flatten) = Except.ok es := h
    cases hmm : sps.mapM (runSpec n) with
    | error e =>
      rw [hmm, exc_bind_err] at h
      exact Except.noConfusion h
    | ok parts =>
      rw [hmm, exc_bind_ok] at h
      replace h : Except.ok parts.flatten = Except.ok es := h
      obtain rfl : parts.flatten = es := Except.ok.inj h
      obtain ⟨part, hpart, hcpart⟩ := List.mem_flatten.mp hm
      obtain ⟨sp, hsp2, hrun⟩ := mapM_ok_mem (runSpec n) sps parts hmm part hpart
      exact runSpec_size n sp part c hrun hcpart

theorem mapM_wrapJS_mem (es : List (Option RawNode)) (cs : List RawNode) (c : RawNode)
    (h : es.mapM wrapJS = Except.ok cs) (hm : c ∈ cs) : some c ∈ es := by
  obtain ⟨e, he, hwrap⟩ := mapM_ok_mem wrapJS es cs h c hm
  cases e with
  | none => simp [wrapJS] at hwrap
  | some c0 =>
    simp only [wrapJS, Except.ok.injEq] at hwrap
    rwa [hwrap] at he

theorem childrenJS_size (n : RawNode) (cs : List RawNode) (c : RawNode)
    (h : childrenJS n = Except.ok cs) (hm : c ∈ cs) : c.size < n.size := by
  unfold childrenJS at h
  replace h : (childrenRawJS n >>= fun es => es.mapM wrapJS) = Except.ok cs := h
  cases hr : childrenRawJS n with
  | error e =>
    rw [hr, exc_bind_err] at h
    exact Except.noConfusion h
  | ok es =>
    rw [hr, exc_bind_ok] at h
    exact childrenRawWith_size childSpecJS n es c hr (mapM_wrapJS_mem es cs c h hm)

/-! ### Fuel adequacy: `size` fuel makes the traversals total -/

/-- Any fuel at least the node's size computes the canonical traversal. -/
theorem descAuxF_canon :
    ∀ (f : Nat) (n : RawNode) (acc : List RawNode), n.size ≤ f →
      descAuxF f n acc = descAuxF n.size n acc := by
  intro f
  induction f using Nat.strong_induction_on with
  | _ f ih =>
    intro n acc hf
    have h1 := size_pos n
    obtain ⟨f1, rfl⟩ : ∃ f1, f = f1 + 1 := ⟨f - 1, by omega⟩
    obtain ⟨m, hm⟩ : ∃ m, n.size = m + 1 := ⟨n.size - 1, by omega⟩
    rw [hm]
    simp only [descAuxF]
    cases hc : childrenJS n with
    | error e => simp only [exc_bind_err]
    | ok cs =>
      simp only [exc_bind_ok]
      apply foldlM_congr
      intro b c hcmem
      have hlt := childrenJS_size n cs c hc hcmem
      rw [ih f1 (by omega) c (b ++ [c]) (by omega), ih m (by omega) c (b ++ [c]) (by omega)]

/-- The accumulator of `descendents` only prefixes the result (the shared
`list` argument of the source is pushed onto left to right). -/
theorem descAuxF_acc :
    ∀ (f : Nat) (n : RawNode) (acc : List RawNode),
      descAuxF f n acc = (fun l => acc ++ l) <$> descAuxF f n [] := by
  intro f
  induction f with
  | zero => intro n acc; rfl
  | succ f ih =>
    have inner : ∀ (cs : List RawNode) (acc : List RawNode),
        cs.foldlM (fun l c => descAuxF f c (l ++ [c])) acc =
          (fun l => acc ++ l) <$> cs.foldlM (fun l c => descAuxF f c (l ++ [c])) [] := by
      intro cs
      induction cs with
      | nil =>
        intro acc
        simp only [List.foldlM_nil]
        show Except.ok acc = Except.ok (acc ++ [])
        simp
      | cons c cs ihcs =>
        intro acc
        rw [List.foldlM_cons, List.foldlM_cons, ih c (acc ++ [c]), ih c ([] ++ [c])]
        cases hd : descAuxF f c [] with
        | error e => simp only [exc_map_err, exc_bind_err]
        | ok ds =>
          simp only [exc_map_ok, exc_bind_ok]
          rw [ihcs (acc ++ [c] ++ ds), ihcs ([] ++ [c] ++ ds)]
          cases hrest : cs.foldlM (fun l c => descAuxF f c (l ++ [c])) [] with
          | error e => simp only [exc_map_err]
          | ok l2 =>
            simp only [exc_map_ok]
            show Except.ok (acc ++ [c] ++ ds ++ l2) = Except.ok (acc ++ ([] ++ [c] ++ ds ++ l2))
            simp [List.append_assoc]
    intro n acc
    simp only [descAuxF]
    cases hc : childrenJS n with
    | error e => simp only [exc_bind_err, exc_map_err]
    | ok cs =>
      simp only [exc_bind_ok]
      exact inner cs acc

/-! ### Claim C3: pre-order recurrence of `descendents()` -/

/-- The kinds whose dispatch row is empty (no children). -/
def leafKinds : List String :=
  ["EmptyStatement", "BreakStatement", "ContinueStatement", "DebuggerStatement",
   "ThisExpression", "Identifier", "Literal"]

/-- A leaf kind yields no children at all. -/
theorem leaf_children (n : RawNode) (h : n.type ∈ leafKinds) :
    childrenJS n = Except.ok [] := by
  have hspec : childSpecJS n.type = some [] := by
    simp only [leafKinds, List.mem_cons, List.not_mem_nil, or_false] at h
    rcases h with h | h | h | h | h | h | h <;> rw [h] <;> decide
  unfold childrenJS childrenRawJS childrenRawWith
  rw [hspec]
  rfl

/-- The traversal `descendents()` satisfies the claimed recurrence: the concatenation,
over the children in order, of each child followed by its own descendants. -/
theorem descendents_recurrence (n : RawNode) :
    descendentsJS n = (do
      let cs ← childrenJS n
      let parts ← cs.mapM (fun c => do
        let ds ← descendentsJS c
        pure (c :: ds))
      pure parts.flatten) := by
  have h1 := size_pos n
  obtain ⟨m, hm⟩ : ∃ m, n.size = m + 1 := ⟨n.size - 1, by omega⟩
  conv_lhs => rw [show descendentsJS n = descAuxF n.size n [] from rfl, hm]
  simp only [descAuxF]
  cases hc : childrenJS n with
  | error e => simp only [exc_bind_err]
  | ok cs =>
    simp only [exc_bind_ok]
    have hcongr : ∀ (b : List RawNode), ∀ c ∈ cs,
        descAuxF m c (b ++ [c]) =
          (fun v => b ++ v) <$> ((fun ds => c :: ds) <$> descAuxF m c []) := by
      intro b c hcmem
      rw [descAuxF_acc m c (b ++ [c])]
      cases descAuxF m c [] with
      | error e => simp only [exc_map_err]
      | ok ds =>
        simp only [exc_map_ok]
        show Except.ok ((b ++ [c]) ++ ds) = Except.ok (b ++ (c :: ds))
        simp
    rw [foldlM_congr _ _ cs [] hcongr,
      foldlM_append_eq_mapM_flatten (fun c => (fun ds => c :: ds) <$> descAuxF m c []) cs []]
    have hmap : cs.mapM (fun c => (fun ds => c :: ds) <$> descAuxF m c []) =
        cs.mapM (fun c => do
          let ds ← descendentsJS c
          pure (c :: ds)) := by
      apply mapM_congr
      intro c hcmem
      have hlt := childrenJS_size n cs c hc hcmem
      rw [descAuxF_canon m c [] (by omega),
        show descendentsJS c = descAuxF c.size c [] from rfl]
      cases descAuxF c.size c [] with
      | error e => simp only [exc_map_err, exc_bind_err]
      | ok ds => simp only [exc_map_ok, exc_bind_ok]; rfl
    rw [hmap]
    cases cs.mapM (fun c => do
        let ds ← descendentsJS c
        pure (c :: ds)) with
    | error e => simp only [exc_map_err, exc_bind_err]
    | ok parts =>
      simp only [exc_map_ok, exc_bind_ok]
      show Except.ok ([] ++ parts.flatten) = Except.ok parts.flatten
      simp

/-- C3: For every WrappedNode, `descendants()` equals the left-to-right
concatenation, over its children in order, of `[child]` followed by that
child's own `descendants()` (pre-order, depth-first, excluding self); for a
node whose kind has no children (identifier, literal, etc.) the result is
the empty sequence. -/
theorem claim3_descendents_preorder :
    (∀ n : RawNode, descendentsJS n = (do
      let cs ← childrenJS n
      let parts ← cs.mapM (fun c => do
        let ds ← descendentsJS c
        pure (c :: ds))
      pure parts.flatten)) ∧
    (∀ n : RawNode, n.type ∈ leafKinds → descendentsJS n = Except.ok []) := by
  refine ⟨descendents_recurrence, fun n h => ?_⟩
  unfold descendentsJS
  have h1 := size_pos n
  obtain ⟨m, hm⟩ : ∃ m, n.size = m + 1 := ⟨n.size - 1, by omega⟩
  rw [hm]
  simp only [descAuxF]
  rw [leaf_children n h, exc_bind_ok, List.foldlM_nil]
  rfl

/-- Witness for C3's leaf clause at a concrete `Identifier` node. -/
theorem claim3_descendents_preorder_w :
    descendentsJS (identF "x") = Except.ok [] :=
  claim3_descendents_preorder.2 (identF "x") (by decide)

/-! ### Claim C2: scope resolution along the parent chain -/

/-- Navigation decomposes over path concatenation. -/
theorem nodeAt_append (q : List Nat) :
    ∀ (root : RawNode) (p : List Nat), nodeAt root (p ++ q) =
      match nodeAt root p with
      | some c => nodeAt c q
      | none => none := by
  intro root p
  induction p generalizing root with
  | nil => simp [nodeAt]
  | cons i p ih =>
    show nodeAt root (i :: (p ++ q)) = _
    simp only [nodeAt]
    cases childAt root i with
    | none => rfl
    | some c => exact ih c

/-- A valid path's prefix (dropping the last step) is valid. -/
theorem nodeAt_concat_some (root : RawNode) (p : List Nat) (i : Nat) (m : RawNode)
    (h : nodeAt root (p ++ [i]) = some m) : ∃ c, nodeAt root p = some c := by
  rw [nodeAt_append] at h
  cases hp : nodeAt root p with
  | none => rw [hp] at h; exact Option.noConfusion h
  | some c => exact ⟨c, rfl⟩

/-- With a scope-introducing root, every valid node resolves to a scope
introduced by a scope-introducing node. -/
theorem scopeAux_total (root : RawNode) (hroot : root.type ∈ scopeKinds) :
    ∀ (rp : List Nat), (∃ n, nodeAt root rp.reverse = some n) →
      ∃ q m, scopeAux root rp = some q ∧ nodeAt root q = some m ∧ m.type ∈ scopeKinds := by
  intro rp
  induction rp with
  | nil =>
    intro _
    exact ⟨[], root, by simp [scopeAux, hroot], rfl, hroot⟩
  | cons i rp ih =>
    rintro ⟨n, hn⟩
    by_cases hk : n.type ∈ scopeKinds
    · exact ⟨(i :: rp).reverse, n, by simp only [scopeAux, hn, if_pos hk], hn, hk⟩
    · have hrev : (i :: rp).reverse = rp.reverse ++ [i] := by simp
      obtain ⟨c, hc⟩ := nodeAt_concat_some root rp.reverse i n (by rwa [hrev] at hn)
      obtain ⟨q, m, hq, hm, hmk⟩ := ih ⟨c, hc⟩
      exact ⟨q, m, by simp only [scopeAux, hn, if_neg hk]; exact hq, hm, hmk⟩

/-- The recurrence of `_scope` on a non-root node: a scope at the node
itself when its kind introduces one, otherwise the parent's scope. -/
theorem scopePath_concat (root : RawNode) (q : List Nat) (i : Nat) :
    scopePath root (q ++ [i]) =
      match nodeAt root (q ++ [i]) with
      | none => none
      | some n => if n.type ∈ scopeKinds then some (q ++ [i]) else scopePath root q := by
  have hrev : (q ++ [i]).reverse = i :: q.reverse := by simp
  have hrev2 : (i :: q.reverse).reverse = q ++ [i] := by simp
  unfold scopePath
  rw [hrev]
  simp only [scopeAux]
  rw [hrev2]

/-- A resolved scope path is a prefix of the reversed remainder. -/
theorem scopeAux_drop (root : RawNode) :
    ∀ (rp : List Nat) (q : List Nat), scopeAux root rp = some q →
      ∃ k, q = (rp.drop k).reverse := by
  intro rp
  induction rp with
  | nil =>
    intro q h
    simp only [scopeAux] at h
    by_cases hk : root.type ∈ scopeKinds
    · rw [if_pos hk] at h
      exact ⟨0, by cases h; rfl⟩
    · rw [if_neg hk] at h
      exact Option.noConfusion h
  | cons i rp ih =>
    intro q h
    simp only [scopeAux] at h
    cases hn : nodeAt root ((i :: rp).reverse) with
    | none => rw [hn] at h; exact Option.noConfusion h
    | some n =>
      rw [hn] at h
      replace h : (if n.type ∈ scopeKinds then some (i :: rp).reverse
          else scopeAux root rp) = some q := h
      by_cases hk : n.type ∈ scopeKinds
      · rw [if_pos hk] at h
        exact ⟨0, by cases h; rfl⟩
      · rw [if_neg hk] at h
        obtain ⟨k, hkk⟩ := ih q h
        exact ⟨k + 1, hkk⟩

/-- A resolved scope path is a prefix of the node's path. -/
theorem scopePath_prefix_of (root : RawNode) (p q : List Nat)
    (h : scopePath root p = some q) : ∃ r, q ++ r = p := by
  obtain ⟨k, hk⟩ := scopeAux_drop root p.reverse q h
  refine ⟨(p.reverse.take k).reverse, ?_⟩
  rw [hk, ← List.reverse_append, List.take_append_drop, List.reverse_reverse]

/-- C2: For every WrappedNode in a well-formed tree (scope-introducing
root), `scope()` resolves to a Scope introduced by a scope-introducing node;
it is the node itself when its kind is Program / FunctionDeclaration /
FunctionExpression and otherwise the parent's scope, computed transitively;
every node resolves to exactly one scope and the root resolves to a scope
introduced by the root itself. -/
theorem claim2_scope_resolution (root : RawNode) (p : List Nat) (n : RawNode)
    (hroot : root.type ∈ scopeKinds) (hp : nodeAt root p = some n) :
    (∃ q m, scopePath root p = some q ∧ nodeAt root q = some m ∧ m.type ∈ scopeKinds) ∧
    (n.type ∈ scopeKinds → scopePath root p = some p) ∧
    (n.type ∉ scopeKinds → p ≠ [] ∧ scopePath root p = scopePath root p.dropLast) ∧
    scopePath root [] = some [] := by
  have hnil : scopePath root [] = some [] := by
    show (if root.type ∈ scopeKinds then some [] else none) = some []
    rw [if_pos hroot]
  refine ⟨?_, ?_, ?_, hnil⟩
  · exact scopeAux_total root hroot p.reverse ⟨n, by rwa [List.reverse_reverse]⟩
  · intro hk
    rcases List.eq_nil_or_concat p with rfl | ⟨q, i, hqi⟩
    · exact hnil
    · rw [List.concat_eq_append] at hqi
      subst hqi
      rw [scopePath_concat, hp]
      show (if n.type ∈ scopeKinds then some (q ++ [i]) else scopePath root q) =
        some (q ++ [i])
      rw [if_pos hk]
  · intro hk
    have hroot_eq : p = [] → root = n := by
      rintro rfl
      simpa [nodeAt] using hp
    have hpne : p ≠ [] := by
      intro hmt
      exact hk (by rw [← hroot_eq hmt]; exact hroot)
    refine ⟨hpne, ?_⟩
    rcases List.eq_nil_or_concat p with rfl | ⟨q, i, hqi⟩
    · exact absurd rfl hpne
    · rw [List.concat_eq_append] at hqi
      subst hqi
      rw [scopePath_concat, hp]
      show (if n.type ∈ scopeKinds then some (q ++ [i]) else scopePath root q) =
        scopePath root (q ++ [i]).dropLast
      rw [if_neg hk]
      congr 1
      simp

/-- Witness for C2 at the example program's function body block (path
`[2, 0]`, a non-scope-introducing node): its scope is its parent's. -/
theorem claim2_scope_resolution_w :
    exProgram.type ∈ scopeKinds ∧
      scopePath exProgram [2, 0] = scopePath exProgram ([2, 0].dropLast) :=
  ⟨by decide,
    ((claim2_scope_resolution exProgram [2, 0] funBody (by decide) rfl).2.2.1
      (by decide)).2⟩

/-! ### Claim C1: identifier collection -/

/-- The fold of `_identifiers` restated per visited descendant: the fold of the source
equals flattening each descendant's individual contribution `contribAt`
(parent-scope instance test, then the `id` push), in pre-order. -/
theorem identifiersAt_eq (root : RawNode) (s : List Nat) (n : RawNode)
    (hp : nodeAt root s = some n) :
    identifiersAt root s = (do
      let ds ← descPairs n
      let parts ← ds.mapM (contribAt root s)
      pure parts.flatten) := by
  have hstep : identifiersAt root s = (do
      let ds ← descPairs n
      ds.foldlM (fun list q =>
        match scopePath root ((s ++ q.1).dropLast) with
        | none => Except.error (JsErr.typeError "cannot resolve parent scope")
        | some ps => pure (if ps = s then list ++ idPush q.2 else list)) []) := by
    unfold identifiersAt
    rw [hp]
  rw [hstep]
  cases hd : descPairs n with
  | error e => simp only [exc_bind_err]
  | ok ds =>
    simp only [exc_bind_ok]
    have hcongr : ∀ (b : List String), ∀ q ∈ ds,
        (match scopePath root ((s ++ q.1).dropLast) with
         | none => Except.error (JsErr.typeError "cannot resolve parent scope")
         | some ps => pure (if ps = s then b ++ idPush q.2 else b)) =
        (fun v => b ++ v) <$> contribAt root s q := by
      intro b q hq
      unfold contribAt
      cases scopePath root ((s ++ q.1).dropLast) with
      | none => rfl
      | some ps =>
        show (pure (if ps = s then b ++ idPush q.2 else b) : Except JsErr (List String)) =
          (fun v => b ++ v) <$>
            (pure (if ps = s then idPush q.2 else []) : Except JsErr (List String))
        by_cases hps : ps = s
        · rw [if_pos hps, if_pos hps]
          rfl
        · rw [if_neg hps, if_neg hps]
          show Except.ok b = Except.ok (b ++ [])
          simp
    rw [foldlM_congr _ _ ds [] hcongr,
      foldlM_append_eq_mapM_flatten (contribAt root s) ds []]
    cases ds.mapM (contribAt root s) with
    | error e => simp only [exc_map_err, exc_bind_err]
    | ok parts =>
      simp only [exc_map_ok, exc_bind_ok]
      show Except.ok ([] ++ parts.flatten) = Except.ok parts.flatten
      simp

/-- C1: `identifiers()` walks the scope node's descendants in pre-order and
appends `node.id.name` for exactly those descendants whose parent's
`scope()` is this same Scope instance and whose raw node carries an
Identifier-kinded `id` field, preserving order and duplicates; on the
example program (var `foo`, for loop declaring `i`, function declaration
`f`) the root scope's identifier list is `["foo", "i", "f"]`. -/
theorem claim1_identifiers_collection :
    (∀ (root : RawNode) (s : List Nat) (n : RawNode), nodeAt root s = some n →
      identifiersAt root s = (do
        let ds ← descPairs n
        let parts ← ds.mapM (contribAt root s)
        pure parts.flatten)) ∧
    identifiersAt exProgram [] = Except.ok ["foo", "i", "f"] :=
  ⟨identifiersAt_eq, by rfl⟩

/-! ### Claim C10: a function's declared name registers in the enclosing
scope, never in the scope the function itself introduces -/

/-- C10: for a function declaration / named function expression at path `a`
whose parent resolves to scope `s` (no intervening scope introducer), the
visit of that node contributes its declared name exactly when collecting for
scope `s` (and nothing for any other scope); `s` is never the function's own
scope (`s ≠ a`); and whenever the collection for `s` succeeds and visits the
node, the name lands in `s`'s identifier list. -/
theorem claim10_function_name_scope (root : RawNode) (a : List Nat)
    (n idn : RawNode) (nm : String) (s : List Nat)
    (ha : a ≠ [])
    (hn : nodeAt root a = some n)
    (hty : n.type = "FunctionDeclaration" ∨ n.type = "FunctionExpression")
    (hid : getF n "id" = some (.vnode idn))
    (hident : idn.type = "Identifier")
    (hnm : getF idn "name" = some (.vstr nm))
    (hs : scopePath root a.dropLast = some s) :
    (∀ (s2 rel : List Nat), s2 ++ rel = a →
      contribAt root s2 (rel, n) = Except.ok (if s = s2 then [nm] else [])) ∧
    s ≠ a ∧
    (∀ (sn : RawNode) (ds : List (List Nat × RawNode)) (l : List String) (rel : List Nat),
      nodeAt root s = some sn → descPairs sn = Except.ok ds → (rel, n) ∈ ds →
      s ++ rel = a → identifiersAt root s = Except.ok l → nm ∈ l) := by
  have hpush : idPush n = [nm] := by
    unfold idPush
    rw [hid]
    show (if idn.type = "Identifier" then
        (match getF idn "name" with
         | some (.vstr x) => [x]
         | _ => ["undefined"]) else []) = [nm]
    rw [if_pos hident, hnm]
  have hcontrib : ∀ (s2 rel : List Nat), s2 ++ rel = a →
      contribAt root s2 (rel, n) = Except.ok (if s = s2 then [nm] else []) := by
    intro s2 rel hrel
    show (match scopePath root ((s2 ++ rel).dropLast) with
      | none => Except.error (JsErr.typeError "cannot resolve parent scope")
      | some ps => pure (if ps = s2 then idPush n else [])) =
      Except.ok (if s = s2 then [nm] else [])
    rw [hrel, hs]
    show (pure (if s = s2 then idPush n else []) : Except JsErr (List String)) =
      Except.ok (if s = s2 then [nm] else [])
    rw [hpush]
    rfl
  have hsa : s ≠ a := by
    obtain ⟨r, hr⟩ := scopePath_prefix_of root a.dropLast s hs
    intro heq
    have hlen : s.length + r.length = a.dropLast.length := by
      rw [← hr]; simp
    have hdl : a.dropLast.length = a.length - 1 := List.length_dropLast a
    have hane : 0 < a.length := List.length_pos.mpr ha
    rw [heq] at hlen
    omega
  refine ⟨hcontrib, hsa, ?_⟩
  intro sn ds l rel hsn hds hmem hrel hl
  rw [identifiersAt_eq root s sn hsn, hds, exc_bind_ok] at hl
  cases hparts : ds.mapM (contribAt root s) with
  | error e => rw [hparts, exc_bind_err] at hl; exact Except.noConfusion hl
  | ok parts =>
    rw [hparts, exc_bind_ok] at hl
    replace hl : parts.flatten = l := Except.ok.inj hl
    have hc := hcontrib s rel hrel
    rw [if_pos rfl] at hc
    obtain ⟨y, hy, hfy⟩ := mapM_ok_of_mem (contribAt root s) ds parts hparts (rel, n) hmem
    rw [hc] at hfy
    obtain rfl : [nm] = y := Except.ok.inj hfy
    rw [← hl]
    exact List.mem_flatten.mpr ⟨[nm], hy, List.mem_singleton.mpr rfl⟩

/-- Witness for C10 at the example program: the visit of `function f` (path
`[2]`) during the root scope's collection contributes exactly `["f"]`. -/
theorem claim10_function_name_scope_w :
    contribAt exProgram [] ([2], funF) = Except.ok ["f"] := by
  have h := (claim10_function_name_scope exProgram [2] funF (identF "f") "f" []
    (by decide) rfl (Or.inl rfl) rfl rfl rfl rfl).1 [] [2] rfl
  rw [if_pos rfl] at h
  exact h

/-! ### Claim C4 (code bug): throw-statement children

`src/spiderman.js`'s `case 'ThrowStatement'` accesses `node.block`,
`node.handler` and `node.finalizer` — the try-statement fields, which a
throw node never has — instead of `[node.argument]`; the revision
`src/unnamed/part_000` (and the spec's table) has the intended behavior. -/

/-- C4: on a throw node carrying an `argument`, the `spiderman.js` extractor
returns `[undefined]` (the absent `block` field), not `[argument]`; the
`part_000` extractor returns exactly `[node.argument]`, for every throw
node. -/
theorem claim4_throw_argument :
    childrenRawJS throwEx = Except.ok [none] ∧
    childrenRawP0 throwEx = Except.ok [some (identF "e")] ∧
    (∀ n : RawNode, n.type = "ThrowStatement" →
      childrenRawP0 n = Except.ok [asNode (getF n "argument")]) := by
  refine ⟨rfl, rfl, fun n h => ?_⟩
  unfold childrenRawP0 childrenRawWith
  rw [h]
  rfl

/-- Witness for C4's universal part at the concrete throw node. -/
theorem claim4_throw_argument_w :
    childrenRawP0 throwEx = Except.ok [asNode (getF throwEx "argument")] :=
  claim4_throw_argument.2.2 throwEx rfl

/-! ### Claim C5 (code bug): try-statement children

`src/spiderman.js` has no `TryStatement` case at all (that logic sits,
mislabelled, under `ThrowStatement`), so a try node falls into the default
branch and fails with the unknown-node-type throw; `src/unnamed/part_000`
returns `[block] + [handler]? + [finalizer]?` as the spec's table states. -/

/-- C5: a try node makes the `spiderman.js` extractor fail with
UnsupportedNodeKind, while the `part_000` extractor returns the block
followed by the present handler. -/
theorem claim5_try_children :
    childrenRawJS tryEx = Except.error
      (.unknownNodeType ("Unknown node type: " ++ formatNode tryEx ++ reportSuffix)) ∧
    childrenRawP0 tryEx = Except.ok [some blockEmpty, some catchEx] :=
  ⟨rfl, rfl⟩

/-! ### Claim C6 (corrected): omission of absent optional fields

The guarded optional positions (`if`'s `alternate`, `return`'s `argument`,
`for`'s `init`/`test`/`update`, `switch-case`'s `test`, and the
handler/finalizer of the try-shaped row) are omitted when absent.  But a
`VariableDeclarator`'s `init` — the claim's own first example — is extracted
unconditionally (`return [node.init]`), so a declarator with no `init`
yields a list containing a null placeholder, not an omission. -/

/-- Counterexample to C6 as stated: a variable declarator with no `init`
yields `[undefined]` — a one-entry list holding a null placeholder. -/
theorem claim6_optional_omitted_counterexample :
    childrenRawJS vdNoInit = Except.ok [none] := rfl

/-- The field at `k` is absent, null, or a node (grammar-conforming input for
an optional child position). -/
def optionalOk (n : RawNode) (k : String) : Bool :=
  match getF n k with
  | none => true
  | some .vnull => true
  | some (.vnode _) => true
  | some _ => false

/-- Modelled from the amended claim's words: what a guarded optional child
position contributes to the child list — the one present node, or nothing at
all when the field is absent or null (never a null placeholder). -/
def optEntry (n : RawNode) (k : String) : List (Option RawNode) :=
  match getF n k with
  | some (.vnode m) => [some m]
  | _ => []

/-- Unpack the `optionalOk` check. -/
theorem optional_cases (n : RawNode) (k : String) (h : optionalOk n k = true) :
    getF n k = none ∨ getF n k = some .vnull ∨ ∃ m, getF n k = some (.vnode m) := by
  unfold optionalOk at h
  cases hg : getF n k with
  | none => exact Or.inl rfl
  | some f =>
    rw [hg] at h
    cases f with
    | vnull => exact Or.inr (Or.inl rfl)
    | vnode m => exact Or.inr (Or.inr ⟨m, rfl⟩)
    | vlist ns =>
      replace h : false = true := h
      exact Bool.noConfusion h
    | vstr s =>
      replace h : false = true := h
      exact Bool.noConfusion h
    | vnum i =>
      replace h : false = true := h
      exact Bool.noConfusion h
    | vbool b =>
      replace h : (false = true) := h
      exact Bool.noConfusion h

/-- For a grammar-conforming optional field, the `opt` combinator (the
source's `node.k ? [node.k] : []` guard) yields exactly the amended claim's
contribution: the present node, or an entire omission. -/
theorem runSpec_opt_of_optional (n : RawNode) (k : String)
    (h : optionalOk n k = true) :
    runSpec n (.opt k) = Except.ok (optEntry n k) := by
  rcases optional_cases n k h with hg | hg | ⟨m, hg⟩ <;>
    simp [runSpec, optEntry, truthyOpt, truthy, asNode, hg]

/-- C6 as amended: a guarded optional entry is never a null placeholder; and
for every recognized node kind with guarded optional child positions — the
if-statement's `alternate`, the return's `argument`, the for statement's
`init`/`test`/`update`, the switch case's `test`, and the `handler` and
`finalizer` of the try-shaped row (in both the `spiderman.js` table, where
that row sits under `ThrowStatement`, and `part_000`'s `TryStatement` row) —
an absent or null optional field is omitted from the child list entirely,
while the present ones keep the grammar's left-to-right order among the
row's other entries.  A variable declarator's `init` is NOT such a position
(see the counterexample). -/
theorem claim6_optional_omitted_amended :
    (∀ (n : RawNode) (k : String), ∀ e ∈ optEntry n k, ∃ m, e = some m) ∧
    (∀ n : RawNode, n.type = "IfStatement" → optionalOk n "alternate" = true →
      childrenRawJS n = Except.ok
        ([asNode (getF n "test"), asNode (getF n "consequent")] ++ optEntry n "alternate")) ∧
    (∀ n : RawNode, n.type = "ReturnStatement" → optionalOk n "argument" = true →
      childrenRawJS n = Except.ok (optEntry n "argument")) ∧
    (∀ n : RawNode, n.type = "ForStatement" → optionalOk n "init" = true →
      optionalOk n "test" = true → optionalOk n "update" = true →
      childrenRawJS n = Except.ok
        (optEntry n "init" ++ optEntry n "test" ++ optEntry n "update"
          ++ [asNode (getF n "body")])) ∧
    (∀ (n : RawNode) (cs : List RawNode), n.type = "SwitchCase" →
      optionalOk n "test" = true → getF n "consequent" = some (.vlist cs) →
      childrenRawJS n = Except.ok (optEntry n "test" ++ cs.map some)) ∧
    (∀ n : RawNode, n.type = "ThrowStatement" → optionalOk n "handler" = true →
      optionalOk n "finalizer" = true →
      childrenRawJS n = Except.ok
        ([asNode (getF n "block")] ++ optEntry n "handler" ++ optEntry n "finalizer")) ∧
    (∀ n : RawNode, n.type = "TryStatement" → optionalOk n "handler" = true →
      optionalOk n "finalizer" = true →
      childrenRawP0 n = Except.ok
        ([asNode (getF n "block")] ++ optEntry n "handler" ++ optEntry n "finalizer")) := by
  refine ⟨?_, ?_, ?_, ?_, ?_, ?_, ?_⟩
  · intro n k e he
    unfold optEntry at he
    cases hg : getF n k with
    | none =>
      rw [hg] at he
      replace he : e ∈ ([] : List (Option RawNode)) := he
      simp at he
    | some f =>
      rw [hg] at he
      cases f with
      | vnode m =>
        replace he : e ∈ [some m] := he
        exact ⟨m, List.mem_singleton.mp he⟩
      | vnull =>
        replace he : e ∈ ([] : List (Option RawNode)) := he
        simp at he
      | vlist ns =>
        replace he : e ∈ ([] : List (Option RawNode)) := he
        simp at he
      | vstr s =>
        replace he : e ∈ ([] : List (Option RawNode)) := he
        simp at he
      | vnum i =>
        replace he : e ∈ ([] : List (Option RawNode)) := he
        simp at he
      | vbool b =>
        replace he : e ∈ ([] : List (Option RawNode)) := he
        simp at he
  · intro n ht ho
    unfold childrenRawJS childrenRawWith
    rw [ht]
    show (do
      let parts ← [CSpec.req "test", .req "consequent", .opt "alternate"].mapM (runSpec n)
      pure parts.flatten : Except JsErr (List (Option RawNode))) = Except.ok
        ([asNode (getF n "test"), asNode (getF n "consequent")] ++ optEntry n "alternate")
    rcases optional_cases n "alternate" ho with hg | hg | ⟨m, hg⟩ <;>
      simp [List.mapM, List.mapM.loop, runSpec, optEntry, truthyOpt, truthy, asNode, hg,
        exc_bind_ok, exc_map_ok]
  · intro n ht ho
    unfold childrenRawJS childrenRawWith
    rw [ht]
    show (do
      let parts ← [CSpec.opt "argument"].mapM (runSpec n)
      pure parts.flatten : Except JsErr (List (Option RawNode))) =
      Except.ok (optEntry n "argument")
    rcases optional_cases n "argument" ho with hg | hg | ⟨m, hg⟩ <;>
      simp [List.mapM, List.mapM.loop, runSpec, optEntry, truthyOpt, truthy, asNode, hg,
        exc_bind_ok, exc_map_ok]
  · intro n ht hi ho hu
    unfold childrenRawJS childrenRawWith
    rw [ht]
    show (do
      let parts ← [CSpec.opt "init", .opt "test", .opt "update", .req "body"].mapM (runSpec n)
      pure parts.flatten : Except JsErr (List (Option RawNode))) = Except.ok
        (optEntry n "init" ++ optEntry n "test" ++ optEntry n "update"
          ++ [asNode (getF n "body")])
    rcases optional_cases n "init" hi with hg1 | hg1 | ⟨m1, hg1⟩ <;>
      rcases optional_cases n "test" ho with hg2 | hg2 | ⟨m2, hg2⟩ <;>
      rcases optional_cases n "update" hu with hg3 | hg3 | ⟨m3, hg3⟩ <;>
      simp [List.mapM, List.mapM.loop, runSpec, optEntry, truthyOpt, truthy, asNode,
        hg1, hg2, hg3, exc_bind_ok, exc_map_ok]
  · intro n cs ht ho hc
    unfold childrenRawJS childrenRawWith
    rw [ht]
    show (do
      let parts ← [CSpec.opt "test", .lst "consequent"].mapM (runSpec n)
      pure parts.flatten : Except JsErr (List (Option RawNode))) =
      Except.ok (optEntry n "test" ++ cs.map some)
    rcases optional_cases n "test" ho with hg | hg | ⟨m, hg⟩ <;>
      simp [List.mapM, List.mapM.loop, runSpec, optEntry, truthyOpt, truthy, asNode, hg, hc,
        exc_bind_ok, exc_map_ok]
  · intro n ht hh hf
    unfold childrenRawJS childrenRawWith
    rw [ht]
    show (do
      let parts ← [CSpec.req "block", .opt "handler", .opt "finalizer"].mapM (runSpec n)
      pure parts.flatten : Except JsErr (List (Option RawNode))) = Except.ok
        ([asNode (getF n "block")] ++ optEntry n "handler" ++ optEntry n "finalizer")
    rcases optional_cases n "handler" hh with hg1 | hg1 | ⟨m1, hg1⟩ <;>
      rcases optional_cases n "finalizer" hf with hg2 | hg2 | ⟨m2, hg2⟩ <;>
      simp [List.mapM, List.mapM.loop, runSpec, optEntry, truthyOpt, truthy, asNode,
        hg1, hg2, exc_bind_ok, exc_map_ok]
  · intro n ht hh hf
    unfold childrenRawP0 childrenRawWith
    rw [ht]
    show (do
      let parts ← [CSpec.req "block", .opt "handler", .opt "finalizer"].mapM (runSpec n)
      pure parts.flatten : Except JsErr (List (Option RawNode))) = Except.ok
        ([asNode (getF n "block")] ++ optEntry n "handler" ++ optEntry n "finalizer")
    rcases optional_cases n "handler" hh with hg1 | hg1 | ⟨m1, hg1⟩ <;>
      rcases optional_cases n "finalizer" hf with hg2 | hg2 | ⟨m2, hg2⟩ <;>
      simp [List.mapM, List.mapM.loop, runSpec, optEntry, truthyOpt, truthy, asNode,
        hg1, hg2, exc_bind_ok, exc_map_ok]

/-- Witness for amended C6 at a for statement with absent `test`: the absent
clause is omitted entirely and the present ones keep their order. -/
theorem claim6_optional_omitted_amended_w :
    childrenRawJS forNoTest = Except.ok
      (optEntry forNoTest "init" ++ optEntry forNoTest "test" ++ optEntry forNoTest "update"
        ++ [asNode (getF forNoTest "body")]) :=
  claim6_optional_omitted_amended.2.2.2.1 forNoTest rfl (by decide) (by decide) (by decide)

/-! ### Claim C7 (code bug): the missing-child guard of `part_000`

`src/unnamed/part_000`'s `children` getter runs
`if (!child) throw 'Missing child: ' + Spiderman.formatNode(self)`, but that
revision never defines `Spiderman.formatNode` (its `formatNode` is a
module-local function), so on a missing required child the getter raises a
`TypeError` from calling `undefined` — not a MissingChild error carrying the
parent's digest. -/

/-- C7: on a declarator with no `init`, the extractor yields a null entry at
a required position and the first `children` access fails — but with the
`TypeError` of the undefined `Spiderman.formatNode`, not a digest-carrying
MissingChild. -/
theorem claim7_missing_child_typeerror :
    childrenRawP0 vdNoInit = Except.ok [none] ∧
    childrenP0 vdNoInit =
      Except.error (.typeError "Spiderman.formatNode is not a function") :=
  ⟨rfl, rfl⟩

/-! ### Claim C8: unsupported node kinds -/

/-- The kinds the `spiderman.js` extractor recognizes. -/
def supportedKindsJS : List String := "ThrowStatement" :: commonTable.map Prod.fst

/-- A key outside a table's key set has no row. -/
theorem lookup_none_of_not_mem {β : Type} :
    ∀ (l : List (String × β)) (k : String), k ∉ l.map Prod.fst → l.lookup k = none := by
  intro l
  induction l with
  | nil => intro k _; rfl
  | cons kv rest ih =>
    intro k h
    obtain ⟨k0, b0⟩ := kv
    simp only [List.map_cons, List.mem_cons] at h
    push_neg at h
    rw [List.lookup]
    cases hk : k == k0 with
    | true => exact absurd (by simpa using hk) h.1
    | false => exact ih k h.2

/-- C8: a raw node whose kind is outside the closed dispatch table makes
child extraction fail with the unknown-node-type throw — whose message
carries the offending kind (the digest's head) and the node's field digest —
and no child list is returned. -/
theorem claim8_unsupported_kind (n : RawNode) (h : n.type ∉ supportedKindsJS) :
    childrenRawJS n = Except.error
      (.unknownNodeType ("Unknown node type: " ++ formatNode n ++ reportSuffix)) ∧
    (∀ es, childrenRawJS n ≠ Except.ok es) ∧
    (∃ r, "Unknown node type: " ++ formatNode n ++ reportSuffix =
      "Unknown node type: " ++ (n.type ++ r)) := by
  have hspec : childSpecJS n.type = none := by
    unfold childSpecJS
    simp only [supportedKindsJS, List.mem_cons] at h
    push_neg at h
    rw [if_neg h.1]
    exact lookup_none_of_not_mem commonTable n.type h.2
  have hmain : childrenRawJS n = Except.error
      (.unknownNodeType ("Unknown node type: " ++ formatNode n ++ reportSuffix)) := by
    unfold childrenRawJS childrenRawWith
    rw [hspec]
  refine ⟨hmain, fun es he => ?_, ?_⟩
  · rw [hmain] at he
    exact Except.noConfusion he
  · refine ⟨" (" ++ String.intercalate ", "
      ((("type", Field.vstr n.type) :: n.fields).map fun kf => fieldEntry kf.1 kf.2)
      ++ ")" ++ reportSuffix, ?_⟩
    unfold formatNode
    simp only [String.append_assoc]

/-- Witness for C8 at a made-up `FooStatement` node. -/
theorem claim8_unsupported_kind_w :
    childrenRawJS fooEx = Except.error
      (.unknownNodeType ("Unknown node type: " ++ formatNode fooEx ++ reportSuffix)) :=
  (claim8_unsupported_kind fooEx (by decide)).1

/-! ### Claim C9 (corrected): the diagnostic digest

The claim says every field is annotated (nested kind / `[]` / primitive
type); in the code a falsy value (`null`, `false`, `0`, `""`) is rendered as
the bare field name with no annotation at all. -/

/-- Counterexample to C9 as stated: `{type: 'Literal', value: false}` is
rendered `Literal (type:string, value)`, not `Literal (type:string,
value:boolean)` — the falsy boolean field gets no primitive-type
annotation. -/
theorem claim9_digest_counterexample :
    formatNode litFalse = "Literal (type:string, value)" ∧
    (formatNode litFalse == "Literal (type:string, value:boolean)") = false :=
  ⟨rfl, rfl⟩

/-- Modelled from the amended claim's words: the annotation of one field —
the nested kind for a node (its `typeof`, `object`, when that kind is the
empty string), `[]` for a list, the primitive type for a truthy primitive,
and none at all for a falsy value. -/
def annotationOf : Field → Option String
  | .vnode m => if m.type = "" then some "object" else some m.type
  | .vlist _ => some "[]"
  | .vstr s => if s = "" then none else some "string"
  | .vnum i => if i = 0 then none else some "number"
  | .vbool b => if b then some "boolean" else none
  | .vnull => none

/-- Modelled from the amended claim's words: one digest entry — the field
name, plus `:` and the annotation when there is one. -/
def entryOfSpec (k : String) (f : Field) : String :=
  match annotationOf f with
  | some a => k ++ ":" ++ a
  | none => k

/-- Modelled from the amended claim's words: the one-line digest
`<kind> (<entries>)` over the node's keys in order, the kind key first. -/
def digestSpec (n : RawNode) : String :=
  n.type ++ " (" ++
    String.intercalate ", "
      ((("type", Field.vstr n.type) :: n.fields).map fun kf => entryOfSpec kf.1 kf.2)
    ++ ")"

/-- C9 as amended: the digest is `<kind> (<field>[:<annotation>], ...)` in
which every field of the node appears, annotated with its nested kind if the
value is a node, `[]` if a list, its primitive type if a truthy primitive,
and left bare (no annotation) if falsy. -/
theorem claim9_digest_amended :
    (∀ (k : String) (f : Field), fieldEntry k f = entryOfSpec k f) ∧
    (∀ n : RawNode, formatNode n = digestSpec n) := by
  have h1 : ∀ (k : String) (f : Field), fieldEntry k f = entryOfSpec k f := by
    intro k f
    cases f with
    | vnode m =>
      by_cases hm : m.type = ""
      · simp [fieldEntry, entryOfSpec, annotationOf, hasTruthyTypeField, isArrayField,
          truthy, typeofField, hm]
      · simp [fieldEntry, entryOfSpec, annotationOf, hasTruthyTypeField, nodeTypeOf, hm]
    | vlist ns =>
      simp [fieldEntry, entryOfSpec, annotationOf, hasTruthyTypeField, isArrayField]
      rw [String.append_assoc]
      exact congrArg (fun x => k ++ x) rfl
    | vstr s =>
      by_cases hs : s = "" <;>
        simp [fieldEntry, entryOfSpec, annotationOf, hasTruthyTypeField, isArrayField,
          truthy, typeofField, hs]
    | vnum i =>
      by_cases hi : i = 0 <;>
        simp [fieldEntry, entryOfSpec, annotationOf, hasTruthyTypeField, isArrayField,
          truthy, typeofField, hi]
    | vbool b =>
      cases b <;>
        simp [fieldEntry, entryOfSpec, annotationOf, hasTruthyTypeField, isArrayField,
          truthy, typeofField]
    | vnull =>
      simp [fieldEntry, entryOfSpec, annotationOf, hasTruthyTypeField, isArrayField, truthy]
  refine ⟨h1, fun n => ?_⟩
  unfold formatNode digestSpec
  rw [show (fun kf : String × Field => fieldEntry kf.1 kf.2) =
    fun kf : String × Field => entryOfSpec kf.1 kf.2 from funext fun kf => h1 kf.1 kf.2]

end Spiderman
